import Mathlib

/-!
Verification development for the `methodoverride` HTTP middleware.

The Go package is shallowly embedded: pointer-mutating functions become
state-passing Lean functions over a `Request`/`RespWriter` record pair, and
the parts of `net/http` form parsing the package calls into
(`ParseMultipartForm`, `ParseForm`, body streams) are modelled from their
standard-library semantics at the level of decoded form values.
-/

set_option autoImplicit false
set_option maxHeartbeats 1000000

namespace Methodoverride

/-- Models Go `map[string][]string` (`url.Values`): an association list from
field names to their accumulated values. -/
abbrev FormMap := List (String × List String)

/-- `m[k]` on a Go string-values map: the value slice for `k`, nil (here `[]`)
when the key is absent. -/
def formGet (m : FormMap) (k : String) : List String :=
  match m with
  | [] => []
  | (k1, vs) :: rest => if k1 = k then vs else formGet rest k

/-- Append a batch of values under one key, as `dst[k] = append(dst[k], vs...)`. -/
def formAddList (m : FormMap) (k : String) (vs : List String) : FormMap :=
  match m with
  | [] => [(k, vs)]
  | (k1, vs1) :: rest =>
    if k1 = k then (k1, vs1 ++ vs) :: rest else (k1, vs1) :: formAddList rest k vs

/-- Append a single value under a key, as `v[k] = append(v[k], value)`. -/
def formAdd (m : FormMap) (k v : String) : FormMap :=
  formAddList m k [v]

/-- Fold every entry of `src` into `dst`, appending values per key — the way
net/http merges parsed post data, query data and multipart values into
`r.Form` and `r.PostForm`. -/
def mergeForm (dst src : FormMap) : FormMap :=
  src.foldl (fun acc kv => formAddList acc kv.1 kv.2) dst

/-- Models Go `strings.ToUpper` on the ASCII method and override names the
middleware handles. -/
def toUpperS (s : String) : String :=
  ⟨s.data.map Char.toUpper⟩

/-- Split a character list at every occurrence of the separator, like
`strings.Split` on a one-character separator. -/
def splitOnChar (c : Char) : List Char → List (List Char)
  | [] => [[]]
  | x :: xs =>
    let rest := splitOnChar c xs
    if x = c then [] :: rest
    else
      match rest with
      | [] => [[x]]
      | seg :: segs => (x :: seg) :: segs

/-- Cut a character list at the first occurrence of the separator, like
`strings.Cut`: the part before it and the part after it (empty when the
separator does not occur). -/
def cutOnChar (c : Char) : List Char → List Char × List Char
  | [] => ([], [])
  | x :: xs =>
    if x = c then ([], xs)
    else
      let ab := cutOnChar c xs
      (x :: ab.1, ab.2)

/-- Models `url.ParseQuery` on the plain (unescaped) key/value strings the
middleware's override values use: split on `&`, cut each segment at the first
`=`, skip empty keys, accumulate values per key in order. -/
def parseQuery (s : String) : FormMap :=
  (splitOnChar '&' s.data).foldl
    (fun acc seg =>
      let kv := cutOnChar '=' seg
      if kv.1 = [] then acc else formAdd acc ⟨kv.1⟩ ⟨kv.2⟩)
    []

/-- The request body stream: either readable with the given remaining bytes,
or a stream whose read fails with an I/O error. -/
inductive BodyState
  | ok (remaining : String)
  | ioerr
deriving DecidableEq, Repr

/-- The request's declared content type. A multipart body carries its decoded
parts (`none` marks a malformed payload on which `multipart.Reader.ReadForm`
fails); wire-level multipart decoding is standard-library behaviour outside
this repository, so it is modelled by its outcome. -/
inductive ContentKind
  | urlencoded
  | multipart (parts : Option FormMap)
  | other
deriving DecidableEq, Repr

/-- The parts of `*http.Request` this middleware reads or writes. `form`,
`postForm` and `multipartForm` model `r.Form`, `r.PostForm` and
`r.MultipartForm.Value` (`none` = nil). `ctx` models the request context's
key/value entries, most recent first, so lookup sees `context.WithValue`
shadowing. -/
structure Request where
  method : String
  headers : List (String × String) := []
  rawQuery : String := ""
  contentType : ContentKind := .other
  body : BodyState := .ok ""
  form : Option FormMap := none
  postForm : Option FormMap := none
  multipartForm : Option FormMap := none
  ctx : List (String × String) := []
deriving DecidableEq, Repr

/-- `r.Header.Get(name)`: the first value recorded for the header, `""` when
absent. -/
def Request.headerGet (r : Request) (name : String) : String :=
  match r.headers.find? (fun kv => kv.1 = name) with
  | some kv => kv.2
  | none => ""

/-- `Context().Value(key)` over the modelled context entries. -/
def ctxValue (ctx : List (String × String)) (k : String) : Option String :=
  match ctx.find? (fun kv => kv.1 = k) with
  | some kv => some kv.2
  | none => none

/-- The response writer, reduced to the header map this middleware can touch;
`Header().Add` appends an entry. -/
structure RespWriter where
  headers : List (String × String) := []
deriving DecidableEq, Repr

def RespWriter.add (w : RespWriter) (k v : String) : RespWriter :=
  { w with headers := w.headers ++ [(k, v)] }

/-- The methods on which getForm reads the request body (methodoverride.go
line 156). -/
def isBodyMethod (m : String) : Bool :=
  m = "POST" || m = "PUT" || m = "PATCH"

/-- Models net/http `(*Request).ParseForm`: populate `r.PostForm` from an
url-encoded body on POST/PUT/PATCH (consuming the body), then `r.Form` from
the post data plus the URL query. The modelled query decoding is total, so
the error value ParseForm can return is always nil and is omitted. -/
def parseForm (r : Request) : Request :=
  let r1 :=
    if r.postForm.isSome then r
    else if isBodyMethod r.method then
      match r.contentType with
      | .urlencoded =>
        match r.body with
        | .ok s => { r with postForm := some (parseQuery s), body := .ok "" }
        | .ioerr => { r with postForm := some [] }
      | _ => { r with postForm := some [] }
    else { r with postForm := some [] }
  if r1.form.isSome then r1
  else { r1 with form := some (mergeForm (r1.postForm.getD []) (parseQuery r1.rawQuery)) }

/-- The two error conditions getForm distinguishes. -/
inductive ParseErr
  | notMultipart
  | other
deriving DecidableEq, Repr

/-- Models net/http `(*Request).ParseMultipartForm`: run `ParseForm` when the
form is not yet parsed, return immediately when a multipart form was already
parsed, report `ErrNotMultipart` for non-multipart content without touching
the body, and otherwise read the body (net/http does so for any method) and
either fail on a malformed payload or install the decoded parts into
`MultipartForm`, `Form` and `PostForm`. -/
def parseMultipartForm (r : Request) : Option ParseErr × Request :=
  let r1 := if r.form.isNone then parseForm r else r
  if r1.multipartForm.isSome then (none, r1)
  else
    match r1.contentType with
    | .multipart parts =>
      match r1.body with
      | .ioerr => (some .other, r1)
      | .ok _ =>
        let r2 := { r1 with body := BodyState.ok "" }
        match parts with
        | none => (some .other, r2)
        | some f =>
          (none, { r2 with
                    form := some (mergeForm (r2.form.getD []) f),
                    postForm := some (mergeForm (r2.postForm.getD []) f),
                    multipartForm := some f })
    | _ => (some .notMultipart, r1)

/-- getBody (methodoverride.go): read the whole body; on success re-install a
fresh stream over the same bytes when `resetBody` is set. A failed read
reports no data and leaves the stream in its failed state. -/
def getBody (r : Request) (resetBody : Bool) : Option String × Request :=
  match r.body with
  | .ioerr => (none, r)
  | .ok s =>
    (some s, if resetBody then { r with body := .ok s } else { r with body := .ok "" })

/-- The cache checks getForm performs both before and after parsing: the first
non-empty of `r.Form`, `r.PostForm`, `r.MultipartForm.Value`. -/
def cachedForm (r : Request) : Option FormMap :=
  if r.form.getD [] ≠ [] then r.form
  else if r.postForm.getD [] ≠ [] then r.postForm
  else if r.multipartForm.getD [] ≠ [] then r.multipartForm
  else none

/-- The tail of getForm after the body-capture step: parse, restore the body
from the retained copy when `resetBody` is set, report a genuine parse error
as not found, and otherwise consult the accumulated form caches. -/
def getFormParse (r : Request) (bodyCopy : String) (resetBody : Bool) :
    (Option FormMap × Bool) × Request :=
  let pr := parseMultipartForm r
  let r2 := if resetBody then { pr.2 with body := BodyState.ok bodyCopy } else pr.2
  if pr.1 ≠ none ∧ pr.1 ≠ some ParseErr.notMultipart then ((none, false), r2)
  else
    match cachedForm r2 with
    | some f => ((some f, true), r2)
    | none => ((none, false), r2)

/-- getForm (methodoverride.go): the request form values, keeping the body
readable for downstream handlers. `postMaxMemory` only bounds net/http's
in-memory multipart storage and has no observable effect in this model. -/
def getForm (r : Request) (postMaxMemory : Nat) (resetBody : Bool) :
    (Option FormMap × Bool) × Request :=
  match cachedForm r with
  | some f => ((some f, true), r)
  | none =>
    if resetBody then
      if isBodyMethod r.method then
        match getBody r true with
        | (none, r1) => ((none, false), r1)
        | (some s, r1) =>
          if s = "" then ((none, false), r1) else getFormParse r1 s true
      else getFormParse r "" false
    else getFormParse r "" false

/-- The 32 << 20 byte multipart memory bound. -/
def postMaxMemory : Nat := 32 <<< 20

/-- GetterFunc: custom extraction logic. The Go getter receives pointers to
the response writer and the request and may mutate both, so the model threads
them through explicitly next to the returned string. -/
abbrev GetterFunc := RespWriter → Request → String × RespWriter × Request

/-- The options record built by configuration. -/
structure Options where
  getters : List GetterFunc := []
  methods : List String := []
  saveOriginalMethodContextKey : Option String := none

/-- options.canOverride: membership of the method in the configured list. -/
def Options.canOverride (o : Options) (method : String) : Bool :=
  o.methods.contains method

/-- The loop of options.get: first non-empty getter result wins and is
upper-cased; later getters are not invoked. -/
def getFirst : List GetterFunc → RespWriter → Request → String × RespWriter × Request
  | [], w, r => ("", w, r)
  | g :: gs, w, r =>
    match g w r with
    | (v, w1, r1) => if v ≠ "" then (toUpperS v, w1, r1) else getFirst gs w1 r1

/-- options.get. -/
def Options.get (o : Options) (w : RespWriter) (r : Request) :
    String × RespWriter × Request :=
  getFirst o.getters w r

/-- The loop inside the Headers(...) getter: first configured header that is
present wins, and a `Vary` response header is recorded for the name used. -/
def headersLoop : List String → RespWriter → Request → String × RespWriter × Request
  | [], w, r => ("", w, r)
  | s :: rest, w, r =>
    let v := r.headerGet s
    if v ≠ "" then (v, w.add "Vary" s, r) else headersLoop rest w r

/-- The getter built by Headers(...). -/
def headersGetter (headerNames : List String) : GetterFunc := fun w r =>
  headersLoop headerNames w r

/-- The getter built by FormField(...): consult getForm and return the first
value of the field, or empty. -/
def formFieldGetter (fieldName : String) : GetterFunc := fun w r =>
  match getForm r postMaxMemory true with
  | ((some form, true), r1) =>
    match formGet form fieldName with
    | v :: _ => (v, w, r1)
    | [] => ("", w, r1)
  | (_, r1) => ("", w, r1)

/-- The getter built by Query(...): `r.URL.Query().Get(paramName)`. -/
def queryGetter (paramName : String) : GetterFunc := fun w r =>
  ((formGet (parseQuery r.rawQuery) paramName).headD "", w, r)

/-- The exported configuration directives of the package (the functions that
build `Option` values). -/
inductive Directive
  | methods (ms : List String)
  | saveOriginalMethod (key : Option String)
  | getter (g : GetterFunc)
  | headers (headerNames : List String)
  | formField (fieldName : String)
  | query (paramName : String)
  | only (os : List Directive)

mutual
/-- Apply one directive, mirroring the corresponding exported Option: Methods
appends the upper-cased names, SaveOriginalMethod stores the key (its nil
branch in the source is dead code and assigns the same value), the extractor
directives append one getter each, and Only empties the getter list and then
applies its inner directives. -/
def applyDirective (o : Options) : Directive → Options
  | .methods ms => { o with methods := o.methods ++ ms.map toUpperS }
  | .saveOriginalMethod k => { o with saveOriginalMethodContextKey := k }
  | .getter g => { o with getters := o.getters ++ [g] }
  | .headers hs => { o with getters := o.getters ++ [headersGetter hs] }
  | .formField f => { o with getters := o.getters ++ [formFieldGetter f] }
  | .query p => { o with getters := o.getters ++ [queryGetter p] }
  | .only os => applyDirectives { o with getters := [] } os

/-- options.configure over a directive list. -/
def applyDirectives (o : Options) : List Directive → Options
  | [] => o
  | d :: ds => applyDirectives (applyDirective o d) ds
end

/-- The default directives New applies before the user's options. -/
def defaultDirectives : List Directive :=
  [.methods ["POST"],
   .headers ["X-HTTP-Method", "X-HTTP-Method-Override", "X-Method-Override"],
   .formField "_method",
   .query "_method"]

/-- The options New builds: defaults first, then the caller's directives. -/
def newOptions (opts : List Directive) : Options :=
  applyDirectives (applyDirectives {} defaultDirectives) opts

/-- The per-request handler New returns, given as the (writer, request) pair
it delegates to the wrapped handler. -/
def serve (opts : Options) (w : RespWriter) (r : Request) : RespWriter × Request :=
  let originalMethod := toUpperS r.method
  if opts.canOverride originalMethod then
    match opts.get w r with
    | (newMethod, w1, r1) =>
      if newMethod ≠ "" then
        let r2 :=
          match opts.saveOriginalMethodContextKey with
          | some key => { r1 with ctx := (key, originalMethod) :: r1.ctx }
          | none => r1
        (w1, { r2 with method := newMethod })
      else (w1, r1)
  else (w, r)

/-- New: the wrapper with defaults plus the given directives. -/
def New (opts : List Directive) (w : RespWriter) (r : Request) :
    RespWriter × Request :=
  serve (newOptions opts) w r

/-- A run of the getter chain on which every getter yielded the empty string,
with the writer/request state threaded along. -/
def allYieldEmpty : List GetterFunc → RespWriter → Request → Bool
  | [], _, _ => true
  | g :: gs, w, r =>
    match g w r with
    | (v, w1, r1) => v = "" && allYieldEmpty gs w1 r1

theorem toUpperS_eq_empty_iff (s : String) : toUpperS s = "" ↔ s = "" := by
  cases s with
  | mk data =>
    cases data with
    | nil => simp [toUpperS]
    | cons c cs => simp [toUpperS, String.ext_iff]

theorem getFirst_all_empty_append (gs1 gs2 : List GetterFunc) (w w1 : RespWriter)
    (r r1 : Request) (h : getFirst gs1 w r = ("", w1, r1)) :
    getFirst (gs1 ++ gs2) w r = getFirst gs2 w1 r1 := by
  induction gs1 generalizing w r with
  | nil =>
    simp only [getFirst, Prod.mk.injEq, true_and] at h
    rw [List.nil_append, h.1, h.2]
  | cons g gs ih =>
    rcases hg : g w r with ⟨v, w2, r2⟩
    by_cases hv : v = ""
    · simp only [List.cons_append, getFirst, hg, hv, ne_eq, not_true_eq_false,
        if_false, ite_false] at h ⊢
      exact ih _ _ h
    · simp only [getFirst, hg, if_pos hv, Prod.mk.injEq] at h
      exact absurd ((toUpperS_eq_empty_iff v).mp h.1) hv

theorem getFirst_first_nonempty (gs1 gs2 : List GetterFunc) (g : GetterFunc)
    (w w1 w2 : RespWriter) (r r1 r2 : Request) (v : String)
    (h1 : getFirst gs1 w r = ("", w1, r1)) (h2 : g w1 r1 = (v, w2, r2))
    (hv : v ≠ "") :
    getFirst (gs1 ++ g :: gs2) w r = (toUpperS v, w2, r2) := by
  rw [getFirst_all_empty_append gs1 (g :: gs2) w w1 r r1 h1]
  simp [getFirst, h2, hv]

theorem getFirst_of_allYieldEmpty (gs : List GetterFunc) (w : RespWriter)
    (r : Request) (h : allYieldEmpty gs w r = true) :
    (getFirst gs w r).1 = "" := by
  induction gs generalizing w r with
  | nil => rfl
  | cons g gs ih =>
    rcases hg : g w r with ⟨v, w1, r1⟩
    simp only [allYieldEmpty, hg, Bool.and_eq_true, decide_eq_true_eq] at h
    simp only [getFirst, hg, h.1, ne_eq, not_true_eq_false, if_false, ite_false]
    exact ih _ _ h.2

/-- The getter list of the default configuration. -/
theorem newOptions_nil_getters :
    (newOptions []).getters =
      [headersGetter ["X-HTTP-Method", "X-HTTP-Method-Override", "X-Method-Override"],
       formFieldGetter "_method", queryGetter "_method"] := rfl

/-- C1: for every configured eligible method and every request whose method is
in the eligible set and on which some configured extractor is the first to
yield a non-empty override value `V`, the request delegated to the wrapped
handler carries method `uppercase(V)`. -/
theorem override_sets_method (opts : Options) (gs1 gs2 : List GetterFunc)
    (g : GetterFunc) (w w1 w2 : RespWriter) (r r1 r2 : Request) (V : String)
    (hgs : opts.getters = gs1 ++ g :: gs2)
    (hel : opts.canOverride (toUpperS r.method) = true)
    (h1 : getFirst gs1 w r = ("", w1, r1))
    (h2 : g w1 r1 = (V, w2, r2))
    (hV : V ≠ "") :
    (serve opts w r).2.method = toUpperS V := by
  have hget : opts.get w r = (toUpperS V, w2, r2) := by
    rw [Options.get, hgs]
    exact getFirst_first_nonempty gs1 gs2 g w w1 w2 r r1 r2 V h1 h2 hV
  have hne : toUpperS V ≠ "" := fun h => hV ((toUpperS_eq_empty_iff V).mp h)
  simp only [serve, hel, if_true, hget, if_pos hne]

/-- Witness for C1: a POST carrying `X-HTTP-Method: delete` under the default
configuration is delivered with method DELETE. -/
theorem override_sets_method_witness :
    (serve (newOptions [])
      {} { method := "POST", headers := [("X-HTTP-Method", "delete")] }).2.method
      = "DELETE" := by
  have h := override_sets_method (newOptions []) []
    [formFieldGetter "_method", queryGetter "_method"]
    (headersGetter ["X-HTTP-Method", "X-HTTP-Method-Override", "X-Method-Override"])
    {} {} { headers := [("Vary", "X-HTTP-Method")] }
    { method := "POST", headers := [("X-HTTP-Method", "delete")] }
    { method := "POST", headers := [("X-HTTP-Method", "delete")] }
    { method := "POST", headers := [("X-HTTP-Method", "delete")] }
    "delete" rfl (by decide) rfl (by decide) (by decide)
  exact h.trans (by decide)

/-- C2: a request whose upper-cased method is outside the eligible set is
delegated with writer and request untouched, whatever getter list is
configured — no extractor is invoked. -/
theorem ineligible_untouched (opts : Options) (gs : List GetterFunc)
    (w : RespWriter) (r : Request)
    (h : opts.canOverride (toUpperS r.method) = false) :
    serve { opts with getters := gs } w r = (w, r) := by
  have h2 : ({ opts with getters := gs } : Options).canOverride (toUpperS r.method)
      = false := h
  simp [serve, h2]

/-- Witness for C2: a DELETE with an override header present passes through
the default configuration unchanged. -/
theorem ineligible_untouched_witness :
    serve { newOptions [] with getters := (newOptions []).getters }
      {} { method := "DELETE", headers := [("X-HTTP-Method", "PUT")] }
      = ({}, { method := "DELETE", headers := [("X-HTTP-Method", "PUT")] }) :=
  ineligible_untouched (newOptions []) (newOptions []).getters
    {} { method := "DELETE", headers := [("X-HTTP-Method", "PUT")] } (by decide)

/-- C3: the chain evaluates extractors in registration order and returns the
upper-cased result of the first one yielding a non-empty string, with the
state as that extractor left it and independently of every later extractor;
a chain on which every extractor yields empty returns empty; and under the
default configuration a request whose `X-HTTP-Method` header is non-empty
resolves to that header's value, whatever any form field says. -/
theorem chain_short_circuit :
    (∀ (gs1 gs2 : List GetterFunc) (g : GetterFunc) (w w1 w2 : RespWriter)
        (r r1 r2 : Request) (v : String),
        getFirst gs1 w r = ("", w1, r1) → g w1 r1 = (v, w2, r2) → v ≠ "" →
        getFirst (gs1 ++ g :: gs2) w r = (toUpperS v, w2, r2))
    ∧ (∀ (gs : List GetterFunc) (w : RespWriter) (r : Request),
        allYieldEmpty gs w r = true → (getFirst gs w r).1 = "")
    ∧ (∀ (w : RespWriter) (r : Request) (v : String),
        r.headerGet "X-HTTP-Method" = v → v ≠ "" →
        ((newOptions []).get w r).1 = toUpperS v) := by
  refine ⟨getFirst_first_nonempty, getFirst_of_allYieldEmpty, ?_⟩
  intro w r v hv hne
  rw [Options.get, newOptions_nil_getters]
  simp [getFirst, headersGetter, headersLoop, hv, hne]

/-- Witness for C3: chain of a header getter before a form getter on a request
carrying both signals resolves to the header value; an empty chain yields
empty; the default chain prefers `X-HTTP-Method: patch` over a `_method`
form field. -/
theorem chain_short_circuit_witness :
    getFirst ([] ++ headersGetter ["X-HTTP-Method"] ::
        [formFieldGetter "_method"]) {}
        { method := "POST", headers := [("X-HTTP-Method", "patch")],
          contentType := .urlencoded, body := .ok "_method=DELETE" }
      = ("PATCH", { headers := [("Vary", "X-HTTP-Method")] },
         { method := "POST", headers := [("X-HTTP-Method", "patch")],
           contentType := .urlencoded, body := .ok "_method=DELETE" })
    ∧ (getFirst [] {} { method := "POST" }).1 = ""
    ∧ ((newOptions []).get {}
        { method := "POST", headers := [("X-HTTP-Method", "patch")],
          contentType := .urlencoded, body := .ok "_method=DELETE" }).1
      = "PATCH" := by
  refine ⟨?_, ?_, ?_⟩
  · exact (chain_short_circuit.1 [] [formFieldGetter "_method"]
      (headersGetter ["X-HTTP-Method"]) {} {}
      { headers := [("Vary", "X-HTTP-Method")] }
      { method := "POST", headers := [("X-HTTP-Method", "patch")],
        contentType := .urlencoded, body := .ok "_method=DELETE" }
      { method := "POST", headers := [("X-HTTP-Method", "patch")],
        contentType := .urlencoded, body := .ok "_method=DELETE" }
      { method := "POST", headers := [("X-HTTP-Method", "patch")],
        contentType := .urlencoded, body := .ok "_method=DELETE" }
      "patch" rfl (by decide) (by decide)).trans (by decide)
  · exact chain_short_circuit.2.1 [] {} { method := "POST" } rfl
  · exact (chain_short_circuit.2.2 {}
      { method := "POST", headers := [("X-HTTP-Method", "patch")],
        contentType := .urlencoded, body := .ok "_method=DELETE" }
      "patch" (by decide) (by decide)).trans (by decide)

/-- C7: with an override resolved, a set preserve key makes the delivered
request a derived one whose context gains exactly the entry mapping the key
to the original upper-cased method on top of the state the chain left
(`r1`), and lookup under the key retrieves that method; with the key unset,
the delivered request's context is exactly the chain's (no entry added), so
a key absent there cannot be retrieved. -/
theorem preserve_key_spec (opts : Options) (w w1 : RespWriter) (r r1 : Request)
    (v : String)
    (hel : opts.canOverride (toUpperS r.method) = true)
    (hg : opts.get w r = (v, w1, r1))
    (hv : v ≠ "") :
    (∀ key, opts.saveOriginalMethodContextKey = some key →
        serve opts w r
          = (w1, { r1 with method := v,
                           ctx := (key, toUpperS r.method) :: r1.ctx })
        ∧ ctxValue (serve opts w r).2.ctx key = some (toUpperS r.method))
    ∧ (opts.saveOriginalMethodContextKey = none →
        serve opts w r = (w1, { r1 with method := v })
        ∧ ∀ k, ctxValue r1.ctx k = none →
            ctxValue (serve opts w r).2.ctx k = none) := by
  constructor
  · intro key hkey
    have hs : serve opts w r
        = (w1, { r1 with method := v,
                         ctx := (key, toUpperS r.method) :: r1.ctx }) := by
      simp only [serve, hel, if_true, hg, if_pos hv, hkey]
    refine ⟨hs, ?_⟩
    rw [hs]
    simp [ctxValue]
  · intro hkey
    have hs : serve opts w r = (w1, { r1 with method := v }) := by
      simp only [serve, hel, if_true, hg, if_pos hv, hkey]
    exact ⟨hs, fun k hk => by rw [hs]; exact hk⟩

/-- Witness for C7: query override `?_method=delete` with preserve key
`_originalMethod`: the context entry retrieves POST. -/
theorem preserve_key_spec_witness :
    ctxValue (serve (newOptions [.saveOriginalMethod (some "_originalMethod")])
        {} { method := "POST", rawQuery := "_method=delete" }).2.ctx
        "_originalMethod" = some "POST" := by
  have h := (preserve_key_spec
    (newOptions [.saveOriginalMethod (some "_originalMethod")])
    {} {} { method := "POST", rawQuery := "_method=delete" }
    { method := "POST", rawQuery := "_method=delete" } "DELETE"
    (by decide) (by decide) (by decide)).1 "_originalMethod" rfl
  exact h.2.trans (by decide)

theorem headersLoop_all_empty (ns : List String) (w : RespWriter) (r : Request)
    (h : ∀ m ∈ ns, r.headerGet m = "") : headersLoop ns w r = ("", w, r) := by
  induction ns with
  | nil => rfl
  | cons n ns ih =>
    have hn := h n (by simp)
    simp only [headersLoop, hn, ne_eq, not_true_eq_false, if_false, ite_false]
    exact ih (fun m hm => h m (by simp [hm]))

theorem headersLoop_first_found (ns1 ns2 : List String) (n : String)
    (w : RespWriter) (r : Request) (v : String)
    (h1 : ∀ m ∈ ns1, r.headerGet m = "") (h2 : r.headerGet n = v) (hv : v ≠ "") :
    headersLoop (ns1 ++ n :: ns2) w r = (v, w.add "Vary" n, r) := by
  induction ns1 with
  | nil => simp [headersLoop, h2, hv]
  | cons m ms ih =>
    have hm := h1 m (by simp)
    simp only [List.cons_append, headersLoop, hm, ne_eq, not_true_eq_false,
      if_false, ite_false]
    exact ih (fun x hx => h1 x (by simp [hx]))

/-- C8: the header extractor scans its names in order; the first name whose
request header is non-empty returns that value and adds a `Vary` response
header for exactly that name, ignoring all later names; when every
configured name is absent or empty it returns empty and leaves the writer
unchanged. -/
theorem headers_getter_spec :
    (∀ (ns1 ns2 : List String) (n : String) (w : RespWriter) (r : Request)
        (v : String),
        (∀ m ∈ ns1, r.headerGet m = "") → r.headerGet n = v → v ≠ "" →
        headersGetter (ns1 ++ n :: ns2) w r = (v, w.add "Vary" n, r))
    ∧ (∀ (ns : List String) (w : RespWriter) (r : Request),
        (∀ m ∈ ns, r.headerGet m = "") → headersGetter ns w r = ("", w, r)) :=
  ⟨fun ns1 ns2 n w r v h1 h2 hv => headersLoop_first_found ns1 ns2 n w r v h1 h2 hv,
   fun ns w r h => headersLoop_all_empty ns w r h⟩

/-- Witness for C8: with `X-HTTP-Method` absent and `X-HTTP-Method-Override`
set to `put`, the default header list yields `put` and records one matching
`Vary` header; a request without the headers yields empty and no `Vary`. -/
theorem headers_getter_spec_witness :
    headersGetter
        (["X-HTTP-Method"] ++ "X-HTTP-Method-Override" :: ["X-Method-Override"])
        {} { method := "POST", headers := [("X-HTTP-Method-Override", "put")] }
      = ("put", RespWriter.add {} "Vary" "X-HTTP-Method-Override",
         { method := "POST", headers := [("X-HTTP-Method-Override", "put")] })
    ∧ headersGetter ["X-HTTP-Method"] {} { method := "POST" }
      = ("", {}, { method := "POST" }) :=
  ⟨headers_getter_spec.1 ["X-HTTP-Method"] ["X-Method-Override"]
      "X-HTTP-Method-Override" {}
      { method := "POST", headers := [("X-HTTP-Method-Override", "put")] }
      "put" (by decide) (by decide) (by decide),
   headers_getter_spec.2 ["X-HTTP-Method"] {} { method := "POST" } (by decide)⟩

mutual
theorem mem_methods_applyDirective (d : Directive) (o : Options) (m : String)
    (h : m ∈ o.methods) : m ∈ (applyDirective o d).methods := by
  cases d with
  | methods ms => exact List.mem_append_left _ h
  | saveOriginalMethod k => exact h
  | getter g => exact h
  | headers hs => exact h
  | formField f => exact h
  | query p => exact h
  | only os => exact mem_methods_applyDirectives os { o with getters := [] } m h

theorem mem_methods_applyDirectives (ds : List Directive) (o : Options)
    (m : String) (h : m ∈ o.methods) : m ∈ (applyDirectives o ds).methods := by
  cases ds with
  | nil => exact h
  | cons d ds =>
    exact mem_methods_applyDirectives ds (applyDirective o d) m
      (mem_methods_applyDirective d o m h)
end

/-- C10: Methods appends its upper-cased arguments to the existing eligible
list and never replaces it; Only resets exactly the getter list before
applying its inner directives and preserves every configured method; and the
options built by New under any directive sequence keep POST eligible. -/
theorem config_additive :
    (∀ (o : Options) (ms : List String),
        applyDirective o (.methods ms)
          = { o with methods := o.methods ++ ms.map toUpperS })
    ∧ (∀ (o : Options) (ds : List Directive),
        applyDirective o (.only ds) = applyDirectives { o with getters := [] } ds)
    ∧ (∀ (o : Options) (ds : List Directive) (m : String),
        m ∈ o.methods → m ∈ (applyDirective o (.only ds)).methods)
    ∧ (∀ ds : List Directive, (newOptions ds).canOverride "POST" = true) := by
  refine ⟨fun o ms => rfl, fun o ds => rfl,
    fun o ds m h => mem_methods_applyDirective (.only ds) o m h, fun ds => ?_⟩
  have hbase : "POST" ∈ (applyDirectives {} defaultDirectives).methods := by decide
  have h := mem_methods_applyDirectives ds (applyDirectives {} defaultDirectives)
    "POST" hbase
  exact List.elem_eq_true_of_mem h

/-- Witness for C10: Only with a custom header keeps POST in the methods of a
configuration that had it, and New under that directive still overrides
POST. -/
theorem config_additive_witness :
    "POST" ∈ (applyDirective
        { getters := [], methods := ["POST"], saveOriginalMethodContextKey := none }
        (.only [.headers ["X-Custom"]])).methods
    ∧ (newOptions [.only [.headers ["X-Custom"]]]).canOverride "POST" = true :=
  ⟨config_additive.2.2.1
      { getters := [], methods := ["POST"], saveOriginalMethodContextKey := none }
      [.headers ["X-Custom"]] "POST" (by decide),
   config_additive.2.2.2 [.only [.headers ["X-Custom"]]]⟩

theorem parseForm_preserves (r : Request) :
    (parseForm r).method = r.method ∧ (parseForm r).ctx = r.ctx ∧
    (parseForm r).headers = r.headers ∧ (parseForm r).rawQuery = r.rawQuery ∧
    (parseForm r).contentType = r.contentType ∧
    (parseForm r).multipartForm = r.multipartForm := by
  unfold parseForm
  refine ⟨?_, ?_, ?_, ?_, ?_, ?_⟩ <;> (repeat' (first | split | dsimp only))
  all_goals simp_all

theorem parseForm_body_nonbody (r : Request) (hnb : isBodyMethod r.method = false) :
    (parseForm r).body = r.body := by
  unfold parseForm
  repeat' (first | split | dsimp only)
  all_goals simp_all

theorem parseMultipartForm_preserves (r : Request) :
    (parseMultipartForm r).2.method = r.method ∧
    (parseMultipartForm r).2.ctx = r.ctx ∧
    (parseMultipartForm r).2.headers = r.headers ∧
    (parseMultipartForm r).2.rawQuery = r.rawQuery ∧
    (parseMultipartForm r).2.contentType = r.contentType := by
  obtain ⟨h1, h2, h3, h4, h5, h6⟩ := parseForm_preserves r
  unfold parseMultipartForm
  refine ⟨?_, ?_, ?_, ?_, ?_⟩ <;> (repeat' (first | split | dsimp only))
  all_goals simp_all

theorem parseMultipartForm_body_nonmultipart (r : Request)
    (hct : ∀ p, r.contentType ≠ .multipart p)
    (hnb : isBodyMethod r.method = false) :
    (parseMultipartForm r).2.body = r.body := by
  have hb := parseForm_body_nonbody r hnb
  have hctp := (parseForm_preserves r).2.2.2.2.1
  unfold parseMultipartForm
  repeat' (first | split | dsimp only)
  all_goals simp_all
  all_goals exact absurd hctp.symm (hct _)

theorem getFormParse_body_reset (r : Request) (c : String) :
    (getFormParse r c true).2.body = BodyState.ok c := by
  unfold getFormParse
  repeat' (first | split | dsimp only)
  all_goals simp_all

theorem getFormParse_body_noreset (r : Request) (c : String) :
    (getFormParse r c false).2.body = (parseMultipartForm r).2.body := by
  unfold getFormParse
  repeat' (first | split | dsimp only)
  all_goals simp_all

theorem getForm_body_restored (r : Request) (pm : Nat) (s : String)
    (hm : isBodyMethod r.method = true) (hb : r.body = .ok s) :
    (getForm r pm true).2.body = BodyState.ok s := by
  unfold getForm
  cases hc : cachedForm r with
  | some f => simpa using hb
  | none =>
    simp only [hm, if_true, getBody, hb]
    split
    · simp
    · exact getFormParse_body_reset _ _

theorem getForm_body_nonbody (r : Request) (pm : Nat)
    (hm : isBodyMethod r.method = false)
    (hct : ∀ p, r.contentType ≠ .multipart p) :
    (getForm r pm true).2.body = r.body := by
  unfold getForm
  cases hc : cachedForm r with
  | some f => rfl
  | none =>
    simp only [hm, if_true, Bool.false_eq_true, if_false, ite_false]
    exact (getFormParse_body_noreset r "").trans
      (parseMultipartForm_body_nonmultipart r hct hm)

/-- C4 counterexample: a GET declaring a well-formed multipart payload has its
body consumed inside net/http's multipart parse and, the method not being
body-bearing, never restored — refuting "on any other method (e.g., GET) the
body is never read at all". -/
theorem getForm_get_multipart_reads_body :
    ({ method := "GET", contentType := .multipart (some [("a", ["b"])]),
       body := .ok "BODY" } : Request).body = BodyState.ok "BODY"
    ∧ (getForm
        { method := "GET", contentType := .multipart (some [("a", ["b"])]),
          body := .ok "BODY" } postMaxMemory true).2.body = BodyState.ok "" :=
  ⟨rfl, by decide⟩

/-- C4 (amended): on POST, PUT and PATCH with body consumption allowed the
body delivered downstream holds exactly the original bytes (read fully,
retained, re-installed after parsing); on any other method the reader itself
never reads the body, and the body is untouched provided the request does
not declare a multipart content type (net/http's multipart parse reads the
body regardless of method, without restoration here). -/
theorem body_safe_reader (r : Request) (pm : Nat) (s : String) :
    (isBodyMethod r.method = true → r.body = .ok s →
      (getForm r pm true).2.body = BodyState.ok s)
    ∧ (isBodyMethod r.method = false → (∀ p, r.contentType ≠ .multipart p) →
      (getForm r pm true).2.body = r.body) :=
  ⟨fun hm hb => getForm_body_restored r pm s hm hb,
   fun hm hct => getForm_body_nonbody r pm hm hct⟩

/-- Witness for C4: a POST with url-encoded body keeps its exact bytes for
downstream; a GET with a non-multipart body is untouched. -/
theorem body_safe_reader_witness :
    (getForm { method := "POST", contentType := .urlencoded, body := .ok "a=b&c=d" }
        postMaxMemory true).2.body
      = BodyState.ok "a=b&c=d"
    ∧ (getForm { method := "GET", contentType := .other, body := .ok "zzz" }
        postMaxMemory true).2.body
      = ({ method := "GET", contentType := .other, body := .ok "zzz" } : Request).body :=
  ⟨(body_safe_reader
      { method := "POST", contentType := .urlencoded, body := .ok "a=b&c=d" }
      postMaxMemory "a=b&c=d").1 (by decide) rfl,
   (body_safe_reader
      { method := "GET", contentType := .other, body := .ok "zzz" }
      postMaxMemory "").2 (by decide) (fun p h => by simp at h)⟩

theorem formAddList_ne_nil (m : FormMap) (k : String) (vs : List String) :
    formAddList m k vs ≠ [] := by
  cases m with
  | nil => simp [formAddList]
  | cons kv rest =>
    rcases kv with ⟨k1, vs1⟩
    simp only [formAddList]
    split <;> simp

theorem mergeForm_eq_nil (dst src : FormMap) (h : mergeForm dst src = []) :
    dst = [] := by
  induction src generalizing dst with
  | nil => exact h
  | cons kv src ih =>
    exact absurd (ih (formAddList dst kv.1 kv.2) h) (formAddList_ne_nil dst kv.1 kv.2)

/-- C5: on a fresh eligible-bodied request, a genuine parse failure (malformed
multipart) reports not found; the not-multipart condition is no error and the
values net/http accumulated (body fields merged with query fields) are still
consulted; an I/O error while reading the body, and an empty body, each
report not found with the request — in particular its form caches — entirely
untouched, the parse never being attempted. -/
theorem getForm_soft_failures (r : Request) (pm : Nat) (s : String)
    (hform : r.form = none) (hpost : r.postForm = none)
    (hmulti : r.multipartForm = none) (hm : isBodyMethod r.method = true) :
    (r.body = .ok s → s ≠ "" → r.contentType = .multipart none →
        (getForm r pm true).1 = (none, false))
    ∧ (r.body = .ok s → s ≠ "" → r.contentType = .urlencoded →
        (getForm r pm true).1 =
          (if mergeForm (parseQuery s) (parseQuery r.rawQuery) = [] then
            ((none : Option FormMap), false)
          else (some (mergeForm (parseQuery s) (parseQuery r.rawQuery)), true)))
    ∧ (r.body = .ioerr → getForm r pm true = ((none, false), r))
    ∧ (r.body = .ok "" → getForm r pm true = ((none, false), r)) := by
  have hcached : cachedForm r = none := by
    simp [cachedForm, hform, hpost, hmulti]
  refine ⟨?_, ?_, ?_, ?_⟩
  · intro hb hs hct
    simp [getForm, hcached, hm, getBody, hb, hs, getFormParse, parseMultipartForm,
      parseForm, hform, hpost, hmulti, hct, cachedForm]
  · intro hb hs hct
    by_cases hF : mergeForm (parseQuery s) (parseQuery r.rawQuery) = []
    · have hP : parseQuery s = [] := mergeForm_eq_nil _ _ hF
      rw [hP] at hF
      simp [getForm, hcached, hm, getBody, hb, hs, getFormParse, parseMultipartForm,
        parseForm, hform, hpost, hmulti, hct, cachedForm, hF, hP]
    · simp [getForm, hcached, hm, getBody, hb, hs, getFormParse, parseMultipartForm,
        parseForm, hform, hpost, hmulti, hct, cachedForm, hF]
  · intro hb
    simp [getForm, hcached, hm, getBody, hb]
  · intro hb
    have heta : ({ r with body := BodyState.ok "" } : Request) = r := by
      rcases r with ⟨m, hd, q, ct, b, f, pf, mf, cx⟩
      cases hb
      rfl
    simp [getForm, hcached, hm, getBody, hb, heta]

/-- Witness for C5: malformed multipart POST; url-encoded PUT with body
`a=b`; PUT with failing body stream; PATCH with empty body. -/
theorem getForm_soft_failures_witness :
    (getForm { method := "POST", contentType := .multipart none, body := .ok "x" }
        postMaxMemory true).1 = (none, false)
    ∧ (getForm { method := "PUT", contentType := .urlencoded, body := .ok "a=b" }
        postMaxMemory true).1 = (some [("a", ["b"])], true)
    ∧ getForm { method := "PUT", body := .ioerr } postMaxMemory true
      = ((none, false), { method := "PUT", body := .ioerr })
    ∧ getForm { method := "PATCH", body := .ok "" } postMaxMemory true
      = ((none, false), { method := "PATCH", body := .ok "" }) := by
  refine ⟨?_, ?_, ?_, ?_⟩
  · exact (getForm_soft_failures
      { method := "POST", contentType := .multipart none, body := .ok "x" }
      postMaxMemory "x" rfl rfl rfl (by decide)).1 rfl (by decide) rfl
  · exact ((getForm_soft_failures
      { method := "PUT", contentType := .urlencoded, body := .ok "a=b" }
      postMaxMemory "a=b" rfl rfl rfl (by decide)).2.1 rfl (by decide) rfl).trans
      (by decide)
  · exact (getForm_soft_failures { method := "PUT", body := .ioerr }
      postMaxMemory "" rfl rfl rfl (by decide)).2.2.1 rfl
  · exact (getForm_soft_failures { method := "PATCH", body := .ok "" }
      postMaxMemory "" rfl rfl rfl (by decide)).2.2.2 rfl

theorem getFormParse_found (r r1 : Request) (c : String) (b : Bool) (f : FormMap)
    (h : getFormParse r c b = ((some f, true), r1)) : cachedForm r1 = some f := by
  simp only [getFormParse] at h
  split at h
  · simp at h
  · split at h
    · rename_i heq
      simp only [Prod.mk.injEq, Option.some.injEq] at h
      rw [← h.2, heq, h.1.1]
    · simp at h

theorem getForm_found_cached (r r1 : Request) (pm : Nat) (f : FormMap)
    (h : getForm r pm true = ((some f, true), r1)) : cachedForm r1 = some f := by
  unfold getForm at h
  cases hc : cachedForm r with
  | some f0 =>
    rw [hc] at h
    simp only [Prod.mk.injEq, Option.some.injEq] at h
    rw [← h.2, hc, h.1.1]
  | none =>
    rw [hc] at h
    simp only [if_true] at h
    split at h
    · split at h
      · simp at h
      · split at h
        · simp at h
        · exact getFormParse_found _ _ _ _ _ h
    · exact getFormParse_found _ _ _ _ _ h

/-- C6: when a getForm call reports found, the values it returned are sitting
in the delivered request's caches, so a second call on that request returns
the identical (form, found) result and the identical request — in particular
it takes the cache fast path and never touches the body again. -/
theorem getForm_idempotent (r r1 : Request) (pm : Nat) (f : FormMap)
    (h : getForm r pm true = ((some f, true), r1)) :
    getForm r1 pm true = ((some f, true), r1) := by
  have hc := getForm_found_cached r r1 pm f h
  unfold getForm
  rw [hc]

/-- Witness for C6: after a first call that parsed `a=b` out of a PUT body,
the second call returns the same values and request. -/
theorem getForm_idempotent_witness :
    getForm { method := "PUT", contentType := .urlencoded, body := .ok "a=b",
              form := some [("a", ["b"])], postForm := some [("a", ["b"])] }
        postMaxMemory true
      = ((some [("a", ["b"])], true),
         { method := "PUT", contentType := .urlencoded, body := .ok "a=b",
           form := some [("a", ["b"])], postForm := some [("a", ["b"])] }) :=
  getForm_idempotent
    { method := "PUT", contentType := .urlencoded, body := .ok "a=b" }
    { method := "PUT", contentType := .urlencoded, body := .ok "a=b",
      form := some [("a", ["b"])], postForm := some [("a", ["b"])] }
    postMaxMemory [("a", ["b"])] (by decide)

theorem getFormParse_method_ctx (r : Request) (c : String) (b : Bool) :
    (getFormParse r c b).2.method = r.method ∧ (getFormParse r c b).2.ctx = r.ctx := by
  have h1 := (parseMultipartForm_preserves r).1
  have h2 := (parseMultipartForm_preserves r).2.1
  unfold getFormParse
  refine ⟨?_, ?_⟩ <;> (repeat' (first | split | dsimp only))
  all_goals simp_all

theorem getForm_method_ctx (r : Request) (pm : Nat) :
    (getForm r pm true).2.method = r.method ∧ (getForm r pm true).2.ctx = r.ctx := by
  unfold getForm
  cases hc : cachedForm r with
  | some f => exact ⟨rfl, rfl⟩
  | none =>
    by_cases hm : isBodyMethod r.method = true
    · simp only [hm, if_true]
      cases hb : r.body with
      | ioerr => simp [getBody, hb]
      | ok s =>
        simp only [getBody, hb]
        by_cases hs : s = ""
        · simp [hs]
        · simpa [hs] using getFormParse_method_ctx { r with body := .ok s } s true
    · simpa [hm] using getFormParse_method_ctx r "" false

theorem headersLoop_request (ns : List String) (w : RespWriter) (r : Request) :
    (headersLoop ns w r).2.2 = r := by
  induction ns generalizing w with
  | nil => rfl
  | cons n ns ih =>
    simp only [headersLoop]
    split
    · rfl
    · exact ih _

theorem formFieldGetter_request (fn : String) (w : RespWriter) (r : Request) :
    ((formFieldGetter fn) w r).2.2 = (getForm r postMaxMemory true).2 := by
  unfold formFieldGetter
  repeat' (first | split | dsimp only)
  all_goals simp_all

/-- Under the default chain, when no extractor yields a value the request the
chain hands back keeps the incoming method and context, and (for
body-bearing methods with a readable body) the incoming body bytes. -/
theorem default_chain_no_override (w w1 : RespWriter) (r r1 : Request)
    (h : (newOptions []).get w r = ("", w1, r1)) :
    r1.method = r.method ∧ r1.ctx = r.ctx ∧
    (∀ s, isBodyMethod r.method = true → r.body = .ok s → r1.body = .ok s) := by
  rw [Options.get, newOptions_nil_getters] at h
  rcases hg1 : headersGetter
      ["X-HTTP-Method", "X-HTTP-Method-Override", "X-Method-Override"] w r
    with ⟨v1, wA, rA⟩
  have hrA : rA = r := by
    have h0 := headersLoop_request
      ["X-HTTP-Method", "X-HTTP-Method-Override", "X-Method-Override"] w r
    rw [show headersLoop
        ["X-HTTP-Method", "X-HTTP-Method-Override", "X-Method-Override"] w r
        = (v1, wA, rA) from hg1] at h0
    exact h0
  simp only [getFirst, hg1] at h
  by_cases hv1 : v1 = ""
  · rw [if_neg (by simp [hv1])] at h
    rcases hg2 : formFieldGetter "_method" wA rA with ⟨v2, wB, rB⟩
    have hrB : rB = (getForm rA postMaxMemory true).2 := by
      have h0 := formFieldGetter_request "_method" wA rA
      rw [hg2] at h0
      exact h0
    simp only [getFirst, hg2] at h
    by_cases hv2 : v2 = ""
    · rw [if_neg (by simp [hv2])] at h
      rcases hg3 : queryGetter "_method" wB rB with ⟨v3, wC, rC⟩
      have hrC : rC = rB := by
        have h0 : (queryGetter "_method" wB rB).2.2 = rB := rfl
        rw [hg3] at h0
        exact h0
      simp only [getFirst, hg3] at h
      by_cases hv3 : v3 = ""
      · rw [if_neg (by simp [hv3])] at h
        simp only [getFirst, Prod.mk.injEq] at h
        have hr1 : r1 = (getForm r postMaxMemory true).2 := by
          rw [← h.2.2, hrC, hrB, hrA]
        obtain ⟨hmeth, hctx⟩ := getForm_method_ctx r postMaxMemory
        refine ⟨by rw [hr1, hmeth], by rw [hr1, hctx], fun s hm hb => ?_⟩
        rw [hr1]
        exact getForm_body_restored r postMaxMemory s hm hb
      · rw [if_pos hv3] at h
        exact absurd ((toUpperS_eq_empty_iff v3).mp (Prod.mk.injEq .. ▸ h).1) hv3
    · rw [if_pos hv2] at h
      exact absurd ((toUpperS_eq_empty_iff v2).mp (Prod.mk.injEq .. ▸ h).1) hv2
  · rw [if_pos hv1] at h
    exact absurd ((toUpperS_eq_empty_iff v1).mp (Prod.mk.injEq .. ▸ h).1) hv1

/-- C9 counterexample: an eligible plain POST with url-encoded body `foo=bar`
and no override signal is delivered with its form cache populated by the
form-field extractor's parse, where the incoming request's cache was nil —
refuting "the form-value caches ... are exactly those of the incoming
request". -/
theorem no_override_caches_mutated :
    (serve (newOptions []) {}
        { method := "POST", contentType := .urlencoded, body := .ok "foo=bar" }).2.form
      = some [("foo", ["bar"])]
    ∧ ({ method := "POST", contentType := .urlencoded,
         body := .ok "foo=bar" } : Request).form = none :=
  ⟨by decide, rfl⟩

/-- C9 (amended): for every eligible request on which the chain yields no
value, serve delegates to the wrapped handler exactly the writer and request
the chain produced; under the default configuration that request keeps the
incoming method, context, and (for body-bearing methods) body bytes, though
its form caches may have been populated by the form-field extractor's
parse. -/
theorem no_override_delegates_unchanged :
    (∀ (opts : Options) (w w1 : RespWriter) (r r1 : Request),
        opts.canOverride (toUpperS r.method) = true →
        opts.get w r = ("", w1, r1) → serve opts w r = (w1, r1))
    ∧ (∀ (w w1 : RespWriter) (r r1 : Request),
        (newOptions []).get w r = ("", w1, r1) →
        r1.method = r.method ∧ r1.ctx = r.ctx ∧
        (∀ s, isBodyMethod r.method = true → r.body = .ok s → r1.body = .ok s)) := by
  refine ⟨fun opts w w1 r r1 hel hg => ?_,
    fun w w1 r r1 h => default_chain_no_override w w1 r r1 h⟩
  simp [serve, hel, hg]

/-- Witness for C9: the no-signal POST with body `foo=bar` is delegated with
the chain's request — method POST, body intact, form caches filled. -/
theorem no_override_delegates_unchanged_witness :
    serve (newOptions []) {}
        { method := "POST", contentType := .urlencoded, body := .ok "foo=bar" }
      = ({}, { method := "POST", contentType := .urlencoded, body := .ok "foo=bar",
               form := some [("foo", ["bar"])], postForm := some [("foo", ["bar"])] })
    ∧ ({ method := "POST", contentType := .urlencoded, body := .ok "foo=bar",
         form := some [("foo", ["bar"])], postForm := some [("foo", ["bar"])] }
        : Request).method = "POST" := by
  refine ⟨no_override_delegates_unchanged.1 (newOptions []) {} {}
      { method := "POST", contentType := .urlencoded, body := .ok "foo=bar" }
      { method := "POST", contentType := .urlencoded, body := .ok "foo=bar",
        form := some [("foo", ["bar"])], postForm := some [("foo", ["bar"])] }
      (by decide) (by decide), ?_⟩
  exact (no_override_delegates_unchanged.2 {} {}
      { method := "POST", contentType := .urlencoded, body := .ok "foo=bar" }
      { method := "POST", contentType := .urlencoded, body := .ok "foo=bar",
        form := some [("foo", ["bar"])], postForm := some [("foo", ["bar"])] }
      (by decide)).1

end Methodoverride
